import Mathlib

/-
Formal model of the golangci-lint version-update pipeline
(tools/update_versions): checksum-manifest parsing, filename platform
extraction, deterministic key sorting, template-data preparation,
cache-or-download resolution, release aggregation and the atomic
Starlark-file writer.  Go maps are modelled as association lists whose
insert overwrites the previous binding for a key; the filesystem is
modelled as a partial map from paths to file contents; the external
download collaborator is an explicit function argument.
-/

namespace UpdateVersions

/-- ASCII whitespace, the character class used by the models of Go's
strings.TrimSpace and strings.Fields (manifest content is ASCII). -/
def isSpaceChar (c : Char) : Bool :=
  c == ' ' || c == '\t' || c == '\n' || c == '\x0b' || c == '\x0c' || c == '\r'

/-- Model of Go's strings.TrimSpace: remove leading and trailing whitespace. -/
def trimSpace (s : String) : String :=
  (((s.toList.dropWhile isSpaceChar).reverse.dropWhile isSpaceChar).reverse).asString

/-- One step of the fields scan: accumulate the current word (reversed) and
flush it when whitespace is reached. -/
def fieldsStep (st : List (List Char) × List Char) (c : Char) :
    List (List Char) × List Char :=
  if isSpaceChar c then
    match st.2 with
    | [] => (st.1, [])
    | w => (st.1 ++ [w.reverse], [])
  else (st.1, c :: st.2)

/-- Model of Go's strings.Fields: split around runs of whitespace. -/
def fields (s : String) : List String :=
  let r := s.toList.foldl fieldsStep ([], [])
  (match r.2 with
   | [] => r.1
   | w => r.1 ++ [w.reverse]).map List.asString

/-- Lines produced by bufio.Scanner with ScanLines on in-memory content:
split at newline characters; a trailing newline does not produce an extra
empty line, and empty input produces no lines. -/
def linesAux : List Char → List Char → List (List Char)
  | [], acc => [acc.reverse]
  | c :: cs, acc =>
    if c = '\n' then acc.reverse :: linesAux cs [] else linesAux cs (c :: acc)

/-- The list of lines the scanner loop of ParseChecksumFile iterates over.
When every newline-separated segment fits in the scanner's maximum token
size this is exactly the token sequence bufio.Scanner yields; when some
segment does not, the real scanner stops at that segment and reports
ErrTooLong (see scannerReadError), ParseChecksumFile returns that error,
and the mapping built from these lines is discarded unreturned. -/
def goLines (content : String) : List String :=
  match content.toList with
  | [] => []
  | cs =>
    let ls := linesAux cs []
    (if cs.getLast? = some '\n' then ls.dropLast else ls).map List.asString

/-- Model of Go's strings.HasSuffix. -/
def goHasSuffix (s suffix : String) : Bool :=
  List.isSuffixOf suffix.toList s.toList

/-- A hexadecimal character, the per-character test of isValidSHA256. -/
def isHexChar (c : Char) : Bool :=
  (('0' ≤ c) && (c ≤ '9')) || (('a' ≤ c) && (c ≤ 'f')) || (('A' ≤ c) && (c ≤ 'F'))

/-- isValidSHA256 from the source: exactly 64 characters, each in
[0-9a-fA-F] (validation accepts both cases). -/
def isValidSHA256 (hash : String) : Bool :=
  hash.toList.length == 64 && hash.toList.all isHexChar

/-- Platform from the source: an OS and architecture pair, used as a map key
with structural equality. -/
structure Platform where
  OS : String
  Arch : String
  deriving DecidableEq, Repr

/-- Character class of the regex fragment [\d.] (digits and the dot). -/
def isDigitDot (c : Char) : Bool :=
  c.isDigit || c == '.'

/-- Character class of the regex fragment [\w] (letters, digits, underscore). -/
def isWordChar (c : Char) : Bool :=
  c.isAlphanum || c == '_'

/-- Match a literal character sequence, returning the rest of the input. -/
def dropLit : List Char → List Char → Option (List Char)
  | [], cs => some cs
  | _ :: _, [] => none
  | l :: ls, c :: cs => if c = l then dropLit ls cs else none

/-- Require one specific character next. -/
def expectChar (e : Char) : List Char → Option (List Char)
  | [] => none
  | c :: cs => if c = e then some cs else none

/-- Match a maximal nonempty run of characters satisfying p, returning the
run and the rest.  For the pattern at hand every delimiter that follows a
run lies outside the run's character class, so the regex engine's greedy
match of a plus-quantified class is exactly this maximal run. -/
def matchRun (p : Char → Bool) (cs : List Char) : Option (List Char × List Char) :=
  match cs.takeWhile p with
  | [] => none
  | run => some (run, cs.dropWhile p)

/-- The literal tool-name segment of the extraction pattern. -/
def toolLit : List Char := "golangci-lint-".toList

/-- The characters of the tar.gz extension alternative. -/
def tarGzLit : List Char := "tar.gz".toList

/-- The characters of the zip extension alternative. -/
def zipLit : List Char := "zip".toList

/-- Attempt to match the regex
golangci-lint-[\d.]+-([\w]+)-([\w]+)\.(tar\.gz|zip)
starting exactly at the head of the input, returning the two capture
groups (os, arch).  Characters may remain after the match: the pattern is
not anchored at the end. -/
def matchAt (cs : List Char) : Option (List Char × List Char) :=
  (dropLit toolLit cs).bind fun cs1 =>
  (matchRun isDigitDot cs1).bind fun v2 =>
  (expectChar '-' v2.2).bind fun cs3 =>
  (matchRun isWordChar cs3).bind fun os4 =>
  (expectChar '-' os4.2).bind fun cs5 =>
  (matchRun isWordChar cs5).bind fun a6 =>
  (expectChar '.' a6.2).bind fun cs7 =>
  match dropLit tarGzLit cs7 with
  | some _ => some (os4.1, a6.1)
  | none =>
    match dropLit zipLit cs7 with
    | some _ => some (os4.1, a6.1)
    | none => none

/-- Leftmost match of the pattern anywhere in the input, as performed by
Go's regexp FindStringSubmatch (leftmost starting position wins). -/
def findMatch : List Char → Option (List Char × List Char)
  | [] => matchAt []
  | c :: cs =>
    match matchAt (c :: cs) with
    | some r => some r
    | none => findMatch cs

/-- ExtractPlatformFromFilename from the source: run the pattern over the
filename and build a Platform from the two capture groups, or fail when
there is no match anywhere in the filename. -/
def ExtractPlatformFromFilename (filename : String) : Except String Platform :=
  match findMatch filename.toList with
  | some r => .ok { OS := r.1.asString, Arch := r.2.asString }
  | none => .error ("filename does not match expected pattern: " ++ filename)

/-- The checksum mapping: a Go map[Platform]string modelled as an
association list whose keys are unique. -/
abbrev Checksums := List (Platform × String)

/-- Map lookup. -/
def lookupChecksum (m : Checksums) (p : Platform) : Option String :=
  (m.find? fun e => decide (e.1 = p)).map Prod.snd

/-- Map insert: overwrite any previous binding of the key. -/
def insertChecksum (m : Checksums) (p : Platform) (h : String) : Checksums :=
  (m.filter fun e => decide (e.1 ≠ p)) ++ [(p, h)]

/-- Fold a list of parsed entries into a map, later entries overwriting
earlier ones, as repeated assignment to a Go map does. -/
def buildChecksums (es : List (Platform × String)) : Checksums :=
  es.foldl (fun acc e => insertChecksum acc e.1 e.2) []

/-- The loop body of ParseChecksumFile for one scanned line: trim, skip
blank lines, split into fields, take the first token as the hash and the
last as the filename, validate the hash, keep only .tar.gz/.zip archives,
and extract the platform; any failed check skips the line. -/
def lineEntry (rawLine : String) : Option (Platform × String) :=
  if trimSpace rawLine = "" then none
  else if (fields (trimSpace rawLine)).length < 2 then none
  else
    match (fields (trimSpace rawLine)).head?, (fields (trimSpace rawLine)).getLast? with
    | some hash, some filename =>
      if !isValidSHA256 hash then none
      else if !(goHasSuffix filename ".tar.gz" || goHasSuffix filename ".zip") then none
      else
        match ExtractPlatformFromFilename filename with
        | .ok p => some (p, hash)
        | .error _ => none
    | _, _ => none

/-- The entries ParseChecksumFile inserts, in file order. -/
def parsedEntries (content : String) : List (Platform × String) :=
  (goLines content).filterMap lineEntry

/-- UTF-8 byte length of a scanned segment, the unit in which
bufio.Scanner's buffer limit is measured. -/
def byteLen (cs : List Char) : Nat :=
  (cs.map Char.utf8Size).sum

/-- bufio.MaxScanTokenSize, the scanner's default maximum token size. -/
def maxScanTokenSize : Nat := 65536

/-- The scanner error checked after the loop.  The underlying bytes.Reader
over in-memory content never fails, but bufio.Scanner itself reports
ErrTooLong when a newline-separated segment reaches the maximum token
size: the buffer fills to its 64 KiB cap without the split function
finding a token.  A terminated line of 65536 or more bytes, or an
unterminated final segment of 65536 or more bytes, triggers it; anything
shorter leaves the error nil. -/
def scannerReadError (content : String) : Option String :=
  if (linesAux content.toList []).any
      (fun seg => decide (maxScanTokenSize ≤ byteLen seg))
  then some "bufio.Scanner: token too long"
  else none

/-- ParseChecksumFile from the source: fold the per-line handler over the
scanned lines, then surface the (absent) scanner read error. -/
def ParseChecksumFile (content : String) : Except String Checksums :=
  let checksums := (goLines content).foldl
    (fun acc raw =>
      match lineEntry raw with
      | some e => insertChecksum acc e.1 e.2
      | none => acc) []
  match scannerReadError content with
  | some e => .error ("error reading checksum file: " ++ e)
  | none => .ok checksums

/-- The three line filters named by the specification, stated in its own
terms: at least two whitespace-separated tokens, a valid 64-hex hash
token, and a filename token ending in .tar.gz or .zip. -/
def passesFilters (rawLine : String) : Bool :=
  decide (2 ≤ (fields (trimSpace rawLine)).length) &&
  (match (fields (trimSpace rawLine)).head? with
   | some hash => isValidSHA256 hash
   | none => false) &&
  (match (fields (trimSpace rawLine)).getLast? with
   | some filename => goHasSuffix filename ".tar.gz" || goHasSuffix filename ".zip"
   | none => false)

/-- Whether platform extraction succeeds on the line's filename token. -/
def lastTokenExtractOk (rawLine : String) : Bool :=
  match (fields (trimSpace rawLine)).getLast? with
  | some filename => (ExtractPlatformFromFilename filename).isOk
  | none => false

/-- A line that passes all three filters but whose filename fails platform
extraction, the subtracted quantity in the specification's count. -/
def extractFailLine (rawLine : String) : Bool :=
  passesFilters rawLine && !lastTokenExtractOk rawLine

/-- Lexicographic comparison of character lists by code point, the order
Go's sort.Strings sorts by (UTF-8 byte order coincides with code-point
order). -/
def charListLe : List Char → List Char → Bool
  | [], _ => true
  | _ :: _, [] => false
  | a :: as, b :: bs => if a = b then charListLe as bs else decide (a < b)

/-- String comparison used by the sorting model. -/
def goStrLe (a b : String) : Bool :=
  charListLe a.toList b.toList

/-- The ordering relation sort.Strings sorts by. -/
def goStrLeRel (a b : String) : Prop :=
  goStrLe a b = true

instance : DecidableRel goStrLeRel := fun a b =>
  inferInstanceAs (Decidable (goStrLe a b = true))

/-- Model of sort.Strings: produce the ascending reordering of the input. -/
def sortStrings (l : List String) : List String :=
  List.insertionSort goStrLeRel l

/-- SortedArchKeys from the source: collect the keys of an arch→hash map
and sort them. -/
def SortedArchKeys (m : List (String × String)) : List String :=
  sortStrings (m.map Prod.fst)

/-- SortedOSKeys from the source: collect the keys of an os→(arch→hash)
map and sort them. -/
def SortedOSKeys (m : List (String × List (String × String))) : List String :=
  sortStrings (m.map Prod.fst)

/-- Release from the source: the minimal projection of an upstream release. -/
structure Release where
  TagName : String
  deriving DecidableEq, Repr

/-- Version from the source: a release tag with its per-platform checksums. -/
structure Version where
  Tag : String
  Checksums : Checksums
  deriving DecidableEq, Repr

/-- processReleases from the source, with the per-tag outcome of the
receiver's loadFromCacheOrDownload abstracted as the function resolve:
skip empty tags, skip releases whose resolution or parsing fails, and
append the surviving {Tag, Checksums} in input order. -/
def processReleases (resolve : String → Except String String)
    (releases : List Release) : List Version :=
  releases.foldl
    (fun versions release =>
      let tag := release.TagName
      if tag = "" then versions
      else
        match resolve tag with
        | .error _ => versions
        | .ok checksumData =>
          match ParseChecksumFile checksumData with
          | .error _ => versions
          | .ok checksums => versions ++ [{ Tag := tag, Checksums := checksums }])
    []

/-- A release processReleases keeps: nonempty tag, successful resolution
and successful parse of the resolved manifest. -/
def releaseSurvives (resolve : String → Except String String) (r : Release) : Bool :=
  !(r.TagName == "") &&
  (match resolve r.TagName with
   | .error _ => false
   | .ok d => (ParseChecksumFile d).isOk)

/-- The check Run performs on the aggregator's result: an empty version
list is the fatal no-versions condition. -/
def runVersionsCheck (versions : List Version) : Except String (List Version) :=
  if versions.length = 0 then .error "no versions were successfully processed"
  else .ok versions

/-- The filesystem: a partial map from paths to file contents. -/
abbrev FS := String → Option String

/-- The outcome of one loadFromCacheOrDownload call: the returned data or
error, the URLs requested from the download collaborator, and the
filesystem after the call. -/
structure FetchOutcome where
  result : Except String String
  downloads : List String
  fs : FS

/-- The asset URL derived from a tag: a single leading v is stripped to
form the version used inside the filename segment. -/
def assetUrl (tag : String) : String :=
  let version :=
    match tag.toList with
    | 'v' :: rest => rest.asString
    | _ => tag
  "https://github.com/golangci/golangci-lint/releases/download/" ++ tag ++
    "/golangci-lint-" ++ version ++ "-checksums.txt"

/-- loadFromCacheOrDownload from the source: if the cache file exists its
contents are returned with no download; otherwise the manifest is
downloaded and, on success, written to the cache (the best-effort cache
write is modelled as succeeding; in the source a failed cache write is
only logged and the downloaded data is returned either way). -/
def loadFromCacheOrDownload (fs : FS) (download : String → Except String String)
    (cacheFile tag : String) : FetchOutcome :=
  match fs cacheFile with
  | some data => { result := .ok data, downloads := [], fs := fs }
  | none =>
    let url := assetUrl tag
    match download url with
    | .error e =>
      { result := .error ("failed to download checksum file: " ++ e),
        downloads := [url], fs := fs }
    | .ok data =>
      { result := .ok data, downloads := [url],
        fs := fun p => if p = cacheFile then some data else fs p }

/-- VersionData from the source: a version reshaped for rendering, its
checksums grouped by OS. -/
structure VersionData where
  Tag : String
  ChecksumsByOS : List (String × List (String × String))
  deriving DecidableEq, Repr

/-- TemplateData from the source. -/
structure TemplateData where
  GeneratedAt : String
  DefaultVersion : String
  Versions : List VersionData
  deriving DecidableEq, Repr

/-- Insert into an arch→hash map, overwriting any previous binding. -/
def insertArch (m : List (String × String)) (arch hash : String) :
    List (String × String) :=
  (m.filter fun e => decide (e.1 ≠ arch)) ++ [(arch, hash)]

/-- organizePlatformsByOS from the source: regroup a flat Platform→hash map
into an os→(arch→hash) map. -/
def organizePlatformsByOS (checksums : Checksums) :
    List (String × List (String × String)) :=
  checksums.foldl
    (fun acc e =>
      let cur := ((acc.find? fun o => decide (o.1 = e.1.OS)).map Prod.snd).getD []
      (acc.filter fun o => decide (o.1 ≠ e.1.OS)) ++
        [(e.1.OS, insertArch cur e.1.Arch e.2)])
    []

/-- PrepareTemplateData from the source; the render-time timestamp
time.Now().UTC().Format(RFC3339) is passed in as now. -/
def PrepareTemplateData (now : String) (versions : List Version) : TemplateData :=
  if h : versions = [] then
    { GeneratedAt := now, DefaultVersion := "", Versions := [] }
  else
    { GeneratedAt := now
      DefaultVersion := (versions.head h).Tag
      Versions := versions.map fun v =>
        { Tag := v.Tag, ChecksumsByOS := organizePlatformsByOS v.Checksums } }

/-- Which steps of GenerateStarlarkFile succeed: template parsing, temp
file creation, template execution, closing the temp file, and the final
rename.  Each models the corresponding fallible call in the source. -/
structure WriteSteps where
  parseOk : Bool
  createOk : Bool
  execOk : Bool
  closeOk : Bool
  renameOk : Bool

/-- GenerateStarlarkFile from the source, with the text the template
renders for the given data abstracted as rendered (the template asset is
embedded in the binary, not part of the sources): create the sibling
temporary file, write the full content into it, close it and rename it
over the output path; any failure after the temporary file was created
removes the temporary file and leaves the output path untouched. -/
def GenerateStarlarkFile (steps : WriteSteps) (rendered : String) (fs : FS)
    (outputPath : String) : Except String Unit × FS :=
  if !steps.parseOk then (.error "failed to parse template", fs)
  else
    let tempFile := outputPath ++ ".tmp"
    if !steps.createOk then (.error "failed to create temp file", fs)
    else
      let fs1 : FS := fun p => if p = tempFile then some "" else fs p
      if !steps.execOk then
        (.error "failed to execute template", fun p => if p = tempFile then none else fs1 p)
      else
        let fs2 : FS := fun p => if p = tempFile then some rendered else fs1 p
        if !steps.closeOk then
          (.error "failed to close temp file", fun p => if p = tempFile then none else fs2 p)
        else if !steps.renameOk then
          (.error "failed to rename temp file", fun p => if p = tempFile then none else fs2 p)
        else
          (.ok (), fun p =>
            if p = outputPath then some rendered
            else if p = tempFile then none
            else fs2 p)

/-- The anchored archive-name shape from the specification, as a substring
pattern: the fixed tool-name literal, a nonempty run of digits and dots, a
dash, a nonempty run of word characters (the OS), a dash, a nonempty run
of word characters (the architecture), a dot and one of the two archive
extensions. -/
def ShapeList (s : List Char) : Prop :=
  ∃ v os arch ext,
    v ≠ [] ∧ (∀ c ∈ v, isDigitDot c = true) ∧
    os ≠ [] ∧ (∀ c ∈ os, isWordChar c = true) ∧
    arch ≠ [] ∧ (∀ c ∈ arch, isWordChar c = true) ∧
    (ext = tarGzLit ∨ ext = zipLit) ∧
    s = toolLit ++ v ++ ('-' :: os) ++ ('-' :: arch) ++ ('.' :: ext)

/-- Manifest with two passing lines extracting to the same platform: a
counterexample to the claimed entry count. -/
def dupPlatformManifest : String :=
  "aaaaaaaaaaaaaaaaaaaaaaaaaaaaaaaaaaaaaaaaaaaaaaaaaaaaaaaaaaaaaaaa  golangci-lint-2.6.1-linux-amd64.tar.gz\nbbbbbbbbbbbbbbbbbbbbbbbbbbbbbbbbbbbbbbbbbbbbbbbbbbbbbbbbbbbbbbbb  golangci-lint-2.6.1-linux-amd64.zip\n"

/-- Manifest with one valid line, for the C3 witness. -/
def singleValidManifest : String :=
  "aaaaaaaaaaaaaaaaaaaaaaaaaaaaaaaaaaaaaaaaaaaaaaaaaaaaaaaaaaaaaaaa  golangci-lint-2.6.1-linux-amd64.tar.gz\n"

/-- A manifest consisting of one unterminated 65536-byte line: it reaches
bufio.Scanner's maximum token size, so scanning it reports ErrTooLong. -/
def longLineManifest : String :=
  String.mk (List.replicate 65536 'a')

/-- A resolver under which tag v2.6.0 fails to download and tag v2.5.0
resolves to a manifest whose parse fails (over-long line); it separates
download failures from parse failures. -/
def mixedFailureResolve (tag : String) : Except String String :=
  if tag = "v2.6.0" then .error "download failed"
  else if tag = "v2.5.0" then .ok longLineManifest
  else .ok ""

/-- Three releases with nonempty tags. -/
def threeReleases : List Release :=
  [{ TagName := "v2.6.1" }, { TagName := "v2.6.0" }, { TagName := "v2.5.0" }]

/-! Ordering facts for the sorting model. -/

lemma charListLe_total : ∀ as bs : List Char,
    charListLe as bs = true ∨ charListLe bs as = true
  | [], _ => Or.inl rfl
  | _ :: _, [] => Or.inr rfl
  | a :: as, b :: bs => by
    by_cases hab : a = b
    · subst hab
      simpa [charListLe] using charListLe_total as bs
    · simp only [charListLe, if_neg hab, if_neg (Ne.symm hab)]
      rcases lt_trichotomy a b with h | h | h
      · exact Or.inl (decide_eq_true h)
      · exact absurd h hab
      · exact Or.inr (decide_eq_true h)

lemma charListLe_trans : ∀ as bs cs : List Char,
    charListLe as bs = true → charListLe bs cs = true → charListLe as cs = true
  | [], _, _ => fun _ _ => rfl
  | _ :: _, [], _ => fun h _ => by simp [charListLe] at h
  | _ :: _, _ :: _, [] => fun _ h => by simp [charListLe] at h
  | a :: as, b :: bs, c :: cs => fun h1 h2 => by
    by_cases hab : a = b <;> by_cases hbc : b = c
    · subst hab; subst hbc
      simp only [charListLe, if_pos rfl] at h1 h2 ⊢
      exact charListLe_trans as bs cs h1 h2
    · subst hab
      simpa [charListLe, hbc] using h2
    · subst hbc
      simpa [charListLe, hab] using h1
    · simp only [charListLe, if_neg hab] at h1
      simp only [charListLe, if_neg hbc] at h2
      have hac : a < c := lt_trans (of_decide_eq_true h1) (of_decide_eq_true h2)
      simp [charListLe, ne_of_lt hac, hac]

lemma charListLe_antisymm : ∀ as bs : List Char,
    charListLe as bs = true → charListLe bs as = true → as = bs
  | [], [] => fun _ _ => rfl
  | [], _ :: _ => fun _ h => by simp [charListLe] at h
  | _ :: _, [] => fun h _ => by simp [charListLe] at h
  | a :: as, b :: bs => fun h1 h2 => by
    by_cases hab : a = b
    · subst hab
      simp only [charListLe, if_pos rfl] at h1 h2
      rw [charListLe_antisymm as bs h1 h2]
    · exfalso
      simp only [charListLe, if_neg hab] at h1
      simp only [charListLe, if_neg (Ne.symm hab)] at h2
      exact absurd (lt_trans (of_decide_eq_true h1) (of_decide_eq_true h2))
        (lt_irrefl a)

lemma toList_inj (a b : String) (h : a.toList = b.toList) : a = b := by
  cases a; cases b
  simp only [String.toList] at h
  rw [h]

instance : IsTotal String goStrLeRel :=
  ⟨fun a b => charListLe_total a.toList b.toList⟩

instance : IsTrans String goStrLeRel :=
  ⟨fun a b c => charListLe_trans a.toList b.toList c.toList⟩

instance : IsAntisymm String goStrLeRel :=
  ⟨fun a b h1 h2 => toList_inj a b (charListLe_antisymm a.toList b.toList h1 h2)⟩

lemma sortStrings_sorted (l : List String) : (sortStrings l).Sorted goStrLeRel :=
  List.sorted_insertionSort goStrLeRel l

lemma sortStrings_perm (l : List String) : (sortStrings l).Perm l :=
  List.perm_insertionSort goStrLeRel l

lemma sortStrings_eq_of_mem_iff (l₁ l₂ : List String) (h₁ : l₁.Nodup)
    (h₂ : l₂.Nodup) (h : ∀ k, k ∈ l₁ ↔ k ∈ l₂) :
    sortStrings l₁ = sortStrings l₂ :=
  List.eq_of_perm_of_sorted
    (((sortStrings_perm l₁).trans ((List.perm_ext_iff_of_nodup h₁ h₂).2 h)).trans
      (sortStrings_perm l₂).symm)
    (sortStrings_sorted l₁) (sortStrings_sorted l₂)

/-- C2.  SortedOSKeys and SortedArchKeys return exactly the keys of the
map, in ascending lexicographic order, and two maps with the same key set
produce the same key sequence regardless of entry order. -/
theorem claim_C2_sorted_keys :
    (∀ m : List (String × List (String × String)),
      (SortedOSKeys m).Sorted goStrLeRel ∧ (SortedOSKeys m).Perm (m.map Prod.fst)) ∧
    (∀ m : List (String × String),
      (SortedArchKeys m).Sorted goStrLeRel ∧ (SortedArchKeys m).Perm (m.map Prod.fst)) ∧
    (∀ m₁ m₂ : List (String × List (String × String)),
      (m₁.map Prod.fst).Nodup → (m₂.map Prod.fst).Nodup →
      (∀ k, k ∈ m₁.map Prod.fst ↔ k ∈ m₂.map Prod.fst) →
      SortedOSKeys m₁ = SortedOSKeys m₂) ∧
    (∀ m₁ m₂ : List (String × String),
      (m₁.map Prod.fst).Nodup → (m₂.map Prod.fst).Nodup →
      (∀ k, k ∈ m₁.map Prod.fst ↔ k ∈ m₂.map Prod.fst) →
      SortedArchKeys m₁ = SortedArchKeys m₂) :=
  ⟨fun _ => ⟨sortStrings_sorted _, sortStrings_perm _⟩,
   fun _ => ⟨sortStrings_sorted _, sortStrings_perm _⟩,
   fun _ _ h₁ h₂ h => sortStrings_eq_of_mem_iff _ _ h₁ h₂ h,
   fun _ _ h₁ h₂ h => sortStrings_eq_of_mem_iff _ _ h₁ h₂ h⟩

/-- Witness for C2 at concrete maps differing only in entry order. -/
theorem claim_C2_sorted_keys_witness :
    SortedOSKeys [("linux", [("amd64", "h1")]), ("darwin", [("arm64", "h2")])] =
      SortedOSKeys [("darwin", [("arm64", "h2")]), ("linux", [("amd64", "h1")])] :=
  claim_C2_sorted_keys.2.2.1 _ _ (by decide) (by decide)
    (fun k => by constructor <;> intro h <;> simpa [or_comm] using h)

/-! The atomic writer. -/

lemma tmpPath_ne (s : String) : s ++ ".tmp" ≠ s := by
  intro h
  have hl := congrArg String.length h
  rw [String.length_append] at hl
  have h4 : (".tmp" : String).length = 4 := rfl
  rw [h4] at hl
  omega

/-- C1.  GenerateStarlarkFile writes atomically: on success the output path
holds the fully rendered content and no sibling temporary file remains; on
any failure the pre-existing output file is untouched, and if the failure
happened after the temporary file was created the temporary file has been
removed. -/
theorem claim_C1_atomic_write (steps : WriteSteps) (rendered : String)
    (fs : FS) (outputPath : String) :
    ((GenerateStarlarkFile steps rendered fs outputPath).1.isOk = true →
      (GenerateStarlarkFile steps rendered fs outputPath).2 outputPath = some rendered ∧
      (GenerateStarlarkFile steps rendered fs outputPath).2 (outputPath ++ ".tmp") = none) ∧
    ((GenerateStarlarkFile steps rendered fs outputPath).1.isOk = false →
      (GenerateStarlarkFile steps rendered fs outputPath).2 outputPath = fs outputPath) ∧
    ((GenerateStarlarkFile steps rendered fs outputPath).1.isOk = false →
      steps.parseOk = true → steps.createOk = true →
      (GenerateStarlarkFile steps rendered fs outputPath).2 (outputPath ++ ".tmp") = none) := by
  obtain ⟨p, c, e, cl, r⟩ := steps
  have hne := tmpPath_ne outputPath
  cases p <;> cases c <;> cases e <;> cases cl <;> cases r <;>
    simp [GenerateStarlarkFile, Except.isOk, Except.toBool, hne, Ne.symm hne]

/-- Witness for C1: a failing close removes the temporary file and leaves
the previous output intact. -/
theorem claim_C1_atomic_write_witness :
    (GenerateStarlarkFile ⟨true, true, true, false, true⟩ "new"
        (fun p => if p = "versions.bzl" then some "old" else none) "versions.bzl").1.isOk
      = false ∧
    (GenerateStarlarkFile ⟨true, true, true, false, true⟩ "new"
        (fun p => if p = "versions.bzl" then some "old" else none) "versions.bzl").2
        "versions.bzl" = some "old" ∧
    (GenerateStarlarkFile ⟨true, true, true, false, true⟩ "new"
        (fun p => if p = "versions.bzl" then some "old" else none) "versions.bzl").2
        ("versions.bzl" ++ ".tmp") = none := by
  refine ⟨rfl, ?_, ?_⟩
  · exact ((claim_C1_atomic_write ⟨true, true, true, false, true⟩ "new"
      (fun p => if p = "versions.bzl" then some "old" else none) "versions.bzl").2.1
        rfl).trans (by decide)
  · exact (claim_C1_atomic_write ⟨true, true, true, false, true⟩ "new"
      (fun p => if p = "versions.bzl" then some "old" else none) "versions.bzl").2.2
        rfl rfl rfl

/-! The cache-or-download resolver and template-data preparation. -/

/-- C8.  A cache hit returns the cache file's contents verbatim, performs
no download and leaves the filesystem unchanged; the download collaborator
is invoked only on a cache miss. -/
theorem claim_C8_cache_hit (fs : FS) (download : String → Except String String)
    (cacheFile tag : String) :
    (∀ data, fs cacheFile = some data →
      loadFromCacheOrDownload fs download cacheFile tag =
        { result := .ok data, downloads := [], fs := fs }) ∧
    ((loadFromCacheOrDownload fs download cacheFile tag).downloads ≠ [] →
      fs cacheFile = none) := by
  constructor
  · intro data h
    simp [loadFromCacheOrDownload, h]
  · intro h
    cases hc : fs cacheFile with
    | none => rfl
    | some data =>
      exact absurd (by simp [loadFromCacheOrDownload, hc]) h

/-- Witness for C8: a pre-populated cache file for tag v2.6.1 is served
with no download even though the collaborator has no asset. -/
theorem claim_C8_cache_hit_witness :
    loadFromCacheOrDownload
        (fun p => if p = "cache/v2.6.1.txt" then some "manifest-bytes" else none)
        (fun _ => .error "no such asset") "cache/v2.6.1.txt" "v2.6.1" =
      { result := .ok "manifest-bytes", downloads := [],
        fs := fun p => if p = "cache/v2.6.1.txt" then some "manifest-bytes" else none } :=
  (claim_C8_cache_hit
      (fun p => if p = "cache/v2.6.1.txt" then some "manifest-bytes" else none)
      (fun _ => .error "no such asset") "cache/v2.6.1.txt" "v2.6.1").1
    "manifest-bytes" (by simp)

/-- C9.  PrepareTemplateData always takes DefaultVersion from the first
element of the version list, whatever its checksum mapping contains. -/
theorem claim_C9_default_version (now : String) (versions : List Version)
    (h : versions ≠ []) :
    (PrepareTemplateData now versions).DefaultVersion = (versions.head h).Tag := by
  simp [PrepareTemplateData, h]

/-- Witness for C9: the first version has an empty checksum mapping and is
still the default, over a later version with checksums. -/
theorem claim_C9_default_version_witness :
    (PrepareTemplateData "2026-01-01T00:00:00Z"
        [{ Tag := "v2.6.1", Checksums := [] },
         { Tag := "v2.6.0",
           Checksums := [({ OS := "linux", Arch := "amd64" }, "abc")] }]).DefaultVersion
      = "v2.6.1" :=
  (claim_C9_default_version "2026-01-01T00:00:00Z"
      [{ Tag := "v2.6.1", Checksums := [] },
       { Tag := "v2.6.0",
         Checksums := [({ OS := "linux", Arch := "amd64" }, "abc")] }]
      (by simp)).trans rfl

/-! Association-list map lemmas. -/

lemma lookup_insertChecksum (m : Checksums) (p : Platform) (h : String)
    (q : Platform) :
    lookupChecksum (insertChecksum m p h) q =
      if q = p then some h else lookupChecksum m q := by
  induction m with
  | nil =>
    by_cases hqp : q = p
    · simp [lookupChecksum, insertChecksum, hqp]
    · simp [lookupChecksum, insertChecksum, hqp, Ne.symm hqp]
  | cons e m ih =>
    by_cases hep : e.1 = p
    · have hfe : insertChecksum (e :: m) p h = insertChecksum m p h := by
        simp [insertChecksum, List.filter_cons, hep]
      rw [hfe, ih]
      by_cases hqp : q = p
      · simp [hqp]
      · have heq : ¬ e.1 = q := fun hc => hqp ((hc.symm.trans hep) ▸ rfl)
        have hdq : (decide (e.1 = q)) = false := decide_eq_false heq
        simp [hqp, lookupChecksum, List.find?_cons, hdq]
    · have hfe : insertChecksum (e :: m) p h = e :: insertChecksum m p h := by
        simp [insertChecksum, List.filter_cons, hep]
      rw [hfe]
      by_cases heq : e.1 = q
      · have hqp : ¬ q = p := fun hc => hep (heq.symm ▸ hc)
        simp [lookupChecksum, List.find?_cons, heq, hqp]
      · simp only [lookupChecksum, List.find?_cons]
        have : (decide (e.1 = q)) = false := decide_eq_false heq
        rw [this]
        exact ih

lemma lookup_foldl_ins (es : List (Platform × String)) (acc : Checksums)
    (p : Platform) :
    lookupChecksum (es.foldl (fun m e => insertChecksum m e.1 e.2) acc) p =
      ((es.reverse.find? fun e => decide (e.1 = p)).map Prod.snd).or
        (lookupChecksum acc p) := by
  induction es generalizing acc with
  | nil => simp
  | cons e es ih =>
    rw [List.foldl_cons, ih, List.reverse_cons, List.find?_append]
    cases hf : es.reverse.find? (fun e => decide (e.1 = p)) with
    | some x => simp
    | none =>
      rw [lookup_insertChecksum]
      by_cases hpe : p = e.1
      · simp [List.find?_cons, hpe]
      · have : (decide (e.1 = p)) = false := decide_eq_false fun hc => hpe hc.symm
        simp [List.find?_cons, this, hpe]

lemma lookup_buildChecksums (es : List (Platform × String)) (p : Platform) :
    lookupChecksum (buildChecksums es) p =
      (es.reverse.find? fun e => decide (e.1 = p)).map Prod.snd := by
  rw [buildChecksums, lookup_foldl_ins]
  cases es.reverse.find? (fun e => decide (e.1 = p)) <;>
    simp [lookupChecksum]

lemma parse_foldl_filterMap (ls : List String) (acc : Checksums) :
    ls.foldl
      (fun acc raw =>
        match lineEntry raw with
        | some e => insertChecksum acc e.1 e.2
        | none => acc) acc =
    (ls.filterMap lineEntry).foldl (fun m e => insertChecksum m e.1 e.2) acc := by
  induction ls generalizing acc with
  | nil => rfl
  | cons raw ls ih =>
    cases h : lineEntry raw <;>
      simp [List.filterMap_cons, h, ih]

lemma ParseChecksumFile_eq_ok (content : String)
    (hs : scannerReadError content = none) :
    ParseChecksumFile content = .ok (buildChecksums (parsedEntries content)) := by
  rw [ParseChecksumFile, hs]
  simp only [parsedEntries, buildChecksums, parse_foldl_filterMap]

lemma ParseChecksumFile_ok_inv (content : String) (m : Checksums)
    (hm : ParseChecksumFile content = .ok m) :
    m = buildChecksums (parsedEntries content) := by
  rw [ParseChecksumFile] at hm
  cases hs : scannerReadError content with
  | some e =>
    rw [hs] at hm
    simp at hm
  | none =>
    rw [hs] at hm
    simp only [Except.ok.injEq] at hm
    rw [← hm, parsedEntries, buildChecksums]
    exact parse_foldl_filterMap _ _

lemma linesAux_no_newline : ∀ cs acc : List Char,
    (∀ c ∈ cs, c ≠ '\n') → linesAux cs acc = [acc.reverse ++ cs]
  | [], acc, _ => by simp [linesAux]
  | c :: cs, acc, h => by
    rw [linesAux]
    have hc : ¬ (c = '\n') := h c (by simp)
    rw [if_neg hc, linesAux_no_newline cs (c :: acc) (fun x hx => h x (by simp [hx]))]
    simp

lemma byteLen_replicate_a (n : Nat) :
    byteLen (List.replicate n 'a') = n := by
  rw [byteLen, List.map_replicate]
  have h1 : ('a' : Char).utf8Size = 1 := rfl
  rw [h1]
  simp [List.sum_replicate]

lemma scannerReadError_longLine :
    scannerReadError longLineManifest = some "bufio.Scanner: token too long" := by
  have h1 : longLineManifest.toList = List.replicate 65536 'a' := rfl
  have hno : ∀ c ∈ List.replicate 65536 'a', c ≠ '\n' := fun c hc => by
    rw [List.eq_of_mem_replicate hc]
    decide
  have hl : linesAux longLineManifest.toList [] = [List.replicate 65536 'a'] := by
    rw [h1, linesAux_no_newline _ _ hno]
    rfl
  have hany : (linesAux longLineManifest.toList []).any
      (fun seg => decide (maxScanTokenSize ≤ byteLen seg)) = true := by
    rw [hl, List.any_cons, List.any_nil, Bool.or_false, byteLen_replicate_a]
    rfl
  rw [scannerReadError, if_pos hany]

lemma ParseChecksumFile_longLine :
    ParseChecksumFile longLineManifest =
      .error "error reading checksum file: bufio.Scanner: token too long" := by
  rw [ParseChecksumFile, scannerReadError_longLine]
  rfl

/-! Totality and content of the parse result. -/

/-- C4 counterexample: a single in-memory line of 65536 bytes makes the
scanner report ErrTooLong, so ParseChecksumFile returns an error with no
I/O failure involved, refuting "never returns an error". -/
theorem claim_C4_parse_total_counterexample :
    (ParseChecksumFile (String.mk (List.replicate 65536 'a'))).isOk = false := by
  have h := ParseChecksumFile_longLine
  rw [longLineManifest] at h
  rw [h]
  rfl

/-- C4 amended.  For every manifest whose newline-separated segments all
stay under bufio.Scanner's 64 KiB maximum token size, ParseChecksumFile
returns a mapping and never an error, and an empty or all-skipped
manifest yields an empty mapping; on in-memory bytes the error return is
reachable only through that token-size limit (bufio ErrTooLong), never
through an I/O read failure of the byte stream. -/
theorem claim_C4_parse_total_amended (content : String)
    (hseg : ∀ seg ∈ linesAux content.toList [], byteLen seg < maxScanTokenSize) :
    (ParseChecksumFile content).isOk = true ∧
    ((∀ raw ∈ goLines content, lineEntry raw = none) →
      ParseChecksumFile content = .ok []) := by
  have hb : ¬ ((linesAux content.toList []).any
      (fun seg => decide (maxScanTokenSize ≤ byteLen seg)) = true) := by
    intro hc
    rw [List.any_eq_true] at hc
    obtain ⟨seg, hmem, hseg'⟩ := hc
    have hlt := hseg seg hmem
    have hle := of_decide_eq_true hseg'
    omega
  have hs : scannerReadError content = none := by
    rw [scannerReadError, if_neg hb]
  constructor
  · rw [ParseChecksumFile_eq_ok content hs]
    rfl
  · intro h
    rw [ParseChecksumFile_eq_ok content hs]
    have he : parsedEntries content = [] := by
      simp only [parsedEntries, List.filterMap_eq_nil_iff]
      exact h
    rw [he]
    rfl

/-- Witness for C4 amended: a short manifest whose only line is skipped
parses to the empty mapping without error. -/
theorem claim_C4_parse_total_amended_witness :
    ParseChecksumFile "not a checksum line\n" = .ok [] :=
  (claim_C4_parse_total_amended "not a checksum line\n" (by decide)).2 (by decide)

/-- C10.  The parse result maps each platform to the hash of the last line
(in file order) that passed every filter and extracted to that platform;
earlier hashes for the same platform are overwritten. -/
theorem claim_C10_last_wins (content : String) (m : Checksums) (p : Platform)
    (hm : ParseChecksumFile content = .ok m) :
    lookupChecksum m p =
      ((parsedEntries content).reverse.find? fun e => decide (e.1 = p)).map
        Prod.snd := by
  have hmb := ParseChecksumFile_ok_inv content m hm
  rw [hmb]
  exact lookup_buildChecksums _ _

/-- Witness for C10: two passing lines share the platform linux/amd64; the
mapping holds the second line's hash. -/
theorem claim_C10_last_wins_witness :
    lookupChecksum
        [({ OS := "linux", Arch := "amd64" },
          "bbbbbbbbbbbbbbbbbbbbbbbbbbbbbbbbbbbbbbbbbbbbbbbbbbbbbbbbbbbbbbbb")]
        { OS := "linux", Arch := "amd64" } =
      some "bbbbbbbbbbbbbbbbbbbbbbbbbbbbbbbbbbbbbbbbbbbbbbbbbbbbbbbbbbbbbbbb" :=
  (claim_C10_last_wins
      ("aaaaaaaaaaaaaaaaaaaaaaaaaaaaaaaaaaaaaaaaaaaaaaaaaaaaaaaaaaaaaaaa  golangci-lint-2.6.1-linux-amd64.tar.gz\nbbbbbbbbbbbbbbbbbbbbbbbbbbbbbbbbbbbbbbbbbbbbbbbbbbbbbbbbbbbbbbbb  golangci-lint-2.6.1-linux-amd64.zip\n")
      [({ OS := "linux", Arch := "amd64" },
        "bbbbbbbbbbbbbbbbbbbbbbbbbbbbbbbbbbbbbbbbbbbbbbbbbbbbbbbbbbbbbbbb")]
      { OS := "linux", Arch := "amd64" } rfl).trans (by decide)

/-- Structural facts about a line the parser accepted: the stored hash
passed isValidSHA256 and is the line's first whitespace-separated token,
exactly as written. -/
lemma lineEntry_some_facts (raw : String) (p : Platform) (h : String)
    (he : lineEntry raw = some (p, h)) :
    isValidSHA256 h = true ∧ (fields (trimSpace raw)).head? = some h := by
  rw [lineEntry] at he
  split at he
  · exact absurd he (by simp)
  split at he
  · exact absurd he (by simp)
  cases hhd : (fields (trimSpace raw)).head? with
  | none => rw [hhd] at he; simp at he
  | some hash =>
    cases hlast : (fields (trimSpace raw)).getLast? with
    | none => rw [hhd, hlast] at he; simp at he
    | some filename =>
      rw [hhd, hlast] at he
      cases hv : isValidSHA256 hash with
      | false => simp [hv] at he
      | true =>
        cases hs : (goHasSuffix filename ".tar.gz" || goHasSuffix filename ".zip") with
        | false => simp [hv, hs] at he
        | true =>
          simp only [hv, hs, Bool.not_true, Bool.false_eq_true, if_false] at he
          cases hx : ExtractPlatformFromFilename filename with
          | ok q =>
            rw [hx] at he
            simp only [Option.some.injEq, Prod.mk.injEq] at he
            obtain ⟨hqp, hhash⟩ := he
            subst hhash
            exact ⟨hv, rfl⟩
          | error msg => rw [hx] at he; simp at he

/-- C6.  Every hash stored in the parse result satisfies the 64-hex
validity predicate and is the first token of some manifest line, stored
exactly as written there (no case normalization). -/
theorem claim_C6_stored_hashes_valid (content : String) (m : Checksums)
    (p : Platform) (hsh : String) (hm : ParseChecksumFile content = .ok m)
    (hl : lookupChecksum m p = some hsh) :
    isValidSHA256 hsh = true ∧
    ∃ raw ∈ goLines content, (fields (trimSpace raw)).head? = some hsh := by
  have hmb := ParseChecksumFile_ok_inv content m hm
  subst hmb
  rw [lookup_buildChecksums] at hl
  obtain ⟨e, hfind, hsnd⟩ := Option.map_eq_some'.mp hl
  have hmem : e ∈ (parsedEntries content).reverse := List.mem_of_find?_eq_some hfind
  rw [List.mem_reverse] at hmem
  obtain ⟨raw, hraw, hentry⟩ := List.mem_filterMap.mp hmem
  have hfact := lineEntry_some_facts raw e.1 e.2 (by rw [hentry])
  rw [hsnd] at hfact
  exact ⟨hfact.1, raw, hraw, hfact.2⟩

/-- Witness for C6: an uppercase hash validates case-insensitively and is
stored in its original case. -/
theorem claim_C6_stored_hashes_valid_witness :
    isValidSHA256 "AAAAAAAAAAAAAAAAAAAAAAAAAAAAAAAAAAAAAAAAAAAAAAAAAAAAAAAAAAAAAAAA" = true ∧
    ∃ raw ∈ goLines "AAAAAAAAAAAAAAAAAAAAAAAAAAAAAAAAAAAAAAAAAAAAAAAAAAAAAAAAAAAAAAAA  golangci-lint-2.6.1-linux-amd64.tar.gz\n",
      (fields (trimSpace raw)).head? =
        some "AAAAAAAAAAAAAAAAAAAAAAAAAAAAAAAAAAAAAAAAAAAAAAAAAAAAAAAAAAAAAAAA" :=
  claim_C6_stored_hashes_valid
    "AAAAAAAAAAAAAAAAAAAAAAAAAAAAAAAAAAAAAAAAAAAAAAAAAAAAAAAAAAAAAAAA  golangci-lint-2.6.1-linux-amd64.tar.gz\n"
    [({ OS := "linux", Arch := "amd64" },
      "AAAAAAAAAAAAAAAAAAAAAAAAAAAAAAAAAAAAAAAAAAAAAAAAAAAAAAAAAAAAAAAA")]
    { OS := "linux", Arch := "amd64" }
    "AAAAAAAAAAAAAAAAAAAAAAAAAAAAAAAAAAAAAAAAAAAAAAAAAAAAAAAAAAAAAAAA"
    rfl (by decide)

/-! Counting the parse result (C3). -/

lemma length_filterMap_countP {α β : Type} (f : α → Option β) (l : List α) :
    (l.filterMap f).length = l.countP fun a => (f a).isSome := by
  induction l with
  | nil => rfl
  | cons a l ih =>
    cases h : f a <;> simp [List.filterMap_cons, h, List.countP_cons, ih]

lemma countP_split {α : Type} (l : List α) (p q : α → Bool) :
    l.countP p =
      l.countP (fun a => p a && q a) + l.countP (fun a => p a && !q a) := by
  induction l with
  | nil => rfl
  | cons a l ih =>
    simp only [List.countP_cons]
    cases hp : p a <;> cases hq : q a <;> simp [hp, hq] <;> omega

/-- The parser keeps a line exactly when it passes the specification's
three filters and its filename extracts to a platform. -/
lemma lineEntry_isSome_eq (raw : String) :
    (lineEntry raw).isSome = (passesFilters raw && lastTokenExtractOk raw) := by
  by_cases h0 : trimSpace raw = ""
  · have hf : fields (trimSpace raw) = [] := by rw [h0]; rfl
    rw [lineEntry, if_pos h0]
    simp [passesFilters, hf]
  · rw [lineEntry, if_neg h0]
    by_cases h1 : (fields (trimSpace raw)).length < 2
    · rw [if_pos h1]
      have h2 : ¬ (2 ≤ (fields (trimSpace raw)).length) := by omega
      simp [passesFilters, h2]
    · rw [if_neg h1]
      have h2 : 2 ≤ (fields (trimSpace raw)).length := by omega
      have hne : fields (trimSpace raw) ≠ [] := by
        intro hc
        rw [hc] at h2
        simp at h2
      obtain ⟨hash, hhd⟩ : ∃ a, (fields (trimSpace raw)).head? = some a := by
        cases hc : (fields (trimSpace raw)).head? with
        | none => exact absurd (List.head?_eq_none_iff.mp hc) hne
        | some a => exact ⟨a, rfl⟩
      obtain ⟨filename, hlast⟩ : ∃ b, (fields (trimSpace raw)).getLast? = some b := by
        cases hc : (fields (trimSpace raw)).getLast? with
        | none => exact absurd (List.getLast?_eq_none_iff.mp hc) hne
        | some b => exact ⟨b, rfl⟩
      rw [passesFilters, lastTokenExtractOk, hhd, hlast]
      cases hv : isValidSHA256 hash with
      | false => simp [hv, h2]
      | true =>
        cases hs : (goHasSuffix filename ".tar.gz" || goHasSuffix filename ".zip") with
        | false => simp [hv, hs, h2]
        | true =>
          cases hx : ExtractPlatformFromFilename filename with
          | ok q => simp [hv, hs, hx, h2, Except.isOk, Except.toBool]
          | error msg => simp [hv, hs, hx, h2, Except.isOk, Except.toBool]

/-- The number of kept entries is the number of filter-passing lines minus
the extraction failures among them. -/
lemma parsedEntries_length (content : String) :
    (parsedEntries content).length =
      (goLines content).countP passesFilters -
        (goLines content).countP extractFailLine := by
  rw [parsedEntries, length_filterMap_countP]
  have hc : ((goLines content).countP fun raw => (lineEntry raw).isSome) =
      (goLines content).countP fun raw => passesFilters raw && lastTokenExtractOk raw :=
    List.countP_congr fun a _ => by rw [lineEntry_isSome_eq]
  have he : (goLines content).countP extractFailLine =
      (goLines content).countP fun raw => passesFilters raw && !lastTokenExtractOk raw :=
    List.countP_congr fun a _ => Iff.rfl
  have hsplit := countP_split (goLines content) passesFilters lastTokenExtractOk
  rw [hc, he]
  omega

lemma keys_insertChecksum_nodup (m : Checksums) (p : Platform) (h : String)
    (hm : (m.map Prod.fst).Nodup) :
    ((insertChecksum m p h).map Prod.fst).Nodup := by
  rw [insertChecksum, List.map_append]
  apply List.Nodup.append
  · exact hm.sublist (List.Sublist.map Prod.fst (List.filter_sublist m))
  · simp
  · intro a ha hb
    simp only [List.map_cons, List.map_nil, List.mem_singleton] at hb
    obtain ⟨e, he, hea⟩ := List.mem_map.mp ha
    obtain ⟨hem, hef⟩ := List.mem_filter.mp he
    exact (of_decide_eq_true hef) (hea.trans hb)

lemma mem_keys_insertChecksum (m : Checksums) (p : Platform) (h : String)
    (q : Platform) :
    q ∈ (insertChecksum m p h).map Prod.fst ↔ q = p ∨ q ∈ m.map Prod.fst := by
  rw [insertChecksum, List.map_append]
  simp only [List.mem_append, List.map_cons, List.map_nil, List.mem_singleton]
  constructor
  · rintro (hq | hq)
    · right
      obtain ⟨e, he, hea⟩ := List.mem_map.mp hq
      exact List.mem_map.mpr ⟨e, (List.mem_filter.mp he).1, hea⟩
    · exact Or.inl hq
  · rintro (hq | hq)
    · exact Or.inr hq
    · by_cases hqp : q = p
      · exact Or.inr hqp
      · left
        obtain ⟨e, he, hea⟩ := List.mem_map.mp hq
        refine List.mem_map.mpr ⟨e, List.mem_filter.mpr ⟨he, ?_⟩, hea⟩
        exact decide_eq_true fun hc => hqp (hea.symm.trans hc)

lemma foldl_ins_keys (es : List (Platform × String)) : ∀ acc : Checksums,
    (acc.map Prod.fst).Nodup →
    (((es.foldl (fun m e => insertChecksum m e.1 e.2) acc).map Prod.fst).Nodup ∧
      ∀ q, q ∈ (es.foldl (fun m e => insertChecksum m e.1 e.2) acc).map Prod.fst ↔
        q ∈ acc.map Prod.fst ∨ q ∈ es.map Prod.fst) := by
  induction es with
  | nil =>
    intro acc hacc
    exact ⟨hacc, fun q => by simp⟩
  | cons e es ih =>
    intro acc hacc
    simp only [List.foldl_cons]
    have hin := ih (insertChecksum acc e.1 e.2) (keys_insertChecksum_nodup _ _ _ hacc)
    refine ⟨hin.1, fun q => ?_⟩
    rw [hin.2 q, mem_keys_insertChecksum]
    simp only [List.map_cons, List.mem_cons]
    tauto

lemma buildChecksums_length (es : List (Platform × String)) :
    (buildChecksums es).length = (es.map Prod.fst).dedup.length := by
  have hk := foldl_ins_keys es [] (by simp)
  have h1 : (buildChecksums es).length =
      ((buildChecksums es).map Prod.fst).length := (List.length_map _ _).symm
  have hperm : ((buildChecksums es).map Prod.fst).Perm ((es.map Prod.fst).dedup) := by
    refine (List.perm_ext_iff_of_nodup hk.1 (List.nodup_dedup _)).2 fun q => ?_
    rw [List.mem_dedup]
    have hq := hk.2 q
    simpa using hq
  rw [h1, hperm.length_eq]

/-- C3 counterexample: two lines pass all three filters with no extraction
failure, yet the mapping has one entry, not two, because both lines name
the platform linux/amd64. -/
theorem claim_C3_entry_count_counterexample :
    (goLines dupPlatformManifest).countP passesFilters = 2 ∧
    (goLines dupPlatformManifest).countP extractFailLine = 0 ∧
    (ParseChecksumFile dupPlatformManifest).toOption.map List.length = some 1 ∧
    ¬ ((ParseChecksumFile dupPlatformManifest).toOption.map List.length =
        some ((goLines dupPlatformManifest).countP passesFilters -
          (goLines dupPlatformManifest).countP extractFailLine)) := by
  decide

/-- C3 amended.  The entry count equals the number of distinct platforms
among the surviving lines; the survivors number exactly the
filter-passing lines minus the extraction failures, so the claimed
equality holds whenever no two surviving lines share a platform. -/
theorem claim_C3_entry_count_amended (content : String) (m : Checksums)
    (hm : ParseChecksumFile content = .ok m) :
    m.length = ((parsedEntries content).map Prod.fst).dedup.length ∧
    (parsedEntries content).length =
      (goLines content).countP passesFilters -
        (goLines content).countP extractFailLine ∧
    (((parsedEntries content).map Prod.fst).Nodup →
      m.length =
        (goLines content).countP passesFilters -
          (goLines content).countP extractFailLine) := by
  have hmb := ParseChecksumFile_ok_inv content m hm
  subst hmb
  refine ⟨buildChecksums_length _, parsedEntries_length content, fun hnd => ?_⟩
  rw [buildChecksums_length _, List.dedup_eq_self.mpr hnd, List.length_map]
  exact parsedEntries_length content

/-- Witness for C3 amended at a manifest with distinct platforms. -/
theorem claim_C3_entry_count_amended_witness :
    ([({ OS := "linux", Arch := "amd64" },
        "aaaaaaaaaaaaaaaaaaaaaaaaaaaaaaaaaaaaaaaaaaaaaaaaaaaaaaaaaaaaaaaa")] :
      Checksums).length =
      (goLines singleValidManifest).countP passesFilters -
        (goLines singleValidManifest).countP extractFailLine :=
  (claim_C3_entry_count_amended singleValidManifest
      [({ OS := "linux", Arch := "amd64" },
        "aaaaaaaaaaaaaaaaaaaaaaaaaaaaaaaaaaaaaaaaaaaaaaaaaaaaaaaaaaaaaaaa")]
      rfl).2.2 (by decide)

/-! Release aggregation (C7). -/

lemma countP_add_countP_not {α : Type} (l : List α) (p : α → Bool) :
    l.countP p + l.countP (fun a => !(p a)) = l.length := by
  induction l with
  | nil => rfl
  | cons a l ih =>
    simp only [List.countP_cons, List.length_cons]
    cases hp : p a <;> simp [hp] <;> omega

lemma processReleases_foldl (resolve : String → Except String String) :
    ∀ (rels : List Release) (acc : List Version),
    rels.foldl
      (fun versions release =>
        if release.TagName = "" then versions
        else
          match resolve release.TagName with
          | .error _ => versions
          | .ok checksumData =>
            match ParseChecksumFile checksumData with
            | .error _ => versions
            | .ok checksums =>
              versions ++ [{ Tag := release.TagName, Checksums := checksums }])
      acc =
    acc ++ rels.filterMap (fun release =>
      if release.TagName = "" then none
      else
        match resolve release.TagName with
        | .error _ => none
        | .ok d =>
          match ParseChecksumFile d with
          | .error _ => none
          | .ok cs => some { Tag := release.TagName, Checksums := cs }) := by
  intro rels
  induction rels with
  | nil => intro acc; simp
  | cons r rels ih =>
    intro acc
    rw [List.foldl_cons, List.filterMap_cons]
    by_cases ht : r.TagName = ""
    · simp [ht, ih]
    · cases hr : resolve r.TagName with
      | error e => simp [ht, hr, ih]
      | ok d =>
        cases hp : ParseChecksumFile d with
        | error e => simp [ht, hr, hp, ih]
        | ok cs => simp [ht, hr, hp, ih, List.append_assoc]

lemma processReleases_eq_filterMap (resolve : String → Except String String)
    (releases : List Release) :
    processReleases resolve releases =
      releases.filterMap (fun release =>
        if release.TagName = "" then none
        else
          match resolve release.TagName with
          | .error _ => none
          | .ok d =>
            match ParseChecksumFile d with
            | .error _ => none
            | .ok cs => some { Tag := release.TagName, Checksums := cs }) := by
  rw [processReleases, processReleases_foldl resolve releases []]
  simp

lemma processReleases_length (resolve : String → Except String String)
    (releases : List Release) :
    (processReleases resolve releases).length =
      releases.countP (releaseSurvives resolve) := by
  rw [processReleases_eq_filterMap, length_filterMap_countP]
  apply List.countP_congr
  intro r _
  rw [releaseSurvives]
  by_cases ht : r.TagName = ""
  · simp [ht]
  · cases hr : resolve r.TagName with
    | error e => simp [ht, hr, Except.isOk, Except.toBool]
    | ok d =>
      cases hp : ParseChecksumFile d with
      | error e => simp [ht, hr, hp, Except.isOk, Except.toBool]
      | ok cs => simp [ht, hr, hp, Except.isOk, Except.toBool]

/-- C7 counterexample: three nonempty-tag releases with exactly one
download failure, but the release v2.5.0 resolves to an unparseable
manifest (over-long line) and is also skipped, so the result has 1
version, not N-1 = 2, refuting the claimed count. -/
theorem claim_C7_aggregation_counterexample :
    (∀ r ∈ threeReleases, r.TagName ≠ "") ∧
    threeReleases.countP (fun r => !(mixedFailureResolve r.TagName).isOk) = 1 ∧
    threeReleases.length - 1 = 2 ∧
    (processReleases mixedFailureResolve threeReleases).length = 1 := by
  have hr1 : releaseSurvives mixedFailureResolve { TagName := "v2.6.1" } = true := rfl
  have hr2 : releaseSurvives mixedFailureResolve { TagName := "v2.6.0" } = false := rfl
  have hr3 : releaseSurvives mixedFailureResolve { TagName := "v2.5.0" } = false := by
    show (!("v2.5.0" == "") &&
      (match mixedFailureResolve "v2.5.0" with
       | .error _ => false
       | .ok d => (ParseChecksumFile d).isOk)) = false
    rw [show mixedFailureResolve "v2.5.0" = .ok longLineManifest from rfl]
    show (!("v2.5.0" == "") && (ParseChecksumFile longLineManifest).isOk) = false
    rw [ParseChecksumFile_longLine]
    rfl
  refine ⟨by decide, by decide, rfl, ?_⟩
  rw [processReleases_length, threeReleases, List.countP_cons, List.countP_cons,
    List.countP_cons, List.countP_nil, hr1, hr2, hr3]
  rfl

/-- C7 amended.  processReleases keeps, in input order, exactly the
releases with a nonempty tag whose resolution AND parsing succeed
(zero-platform parses included, parse failures such as an over-long
manifest line excluded); its length counts those survivors; with all tags
nonempty, every resolved manifest parseable and exactly one failing
resolution, the result has N-1 elements; and an empty result makes Run's
check return the fatal no-versions error. -/
theorem claim_C7_aggregation_amended (resolve : String → Except String String)
    (releases : List Release) :
    processReleases resolve releases =
      releases.filterMap (fun release =>
        if release.TagName = "" then none
        else
          match resolve release.TagName with
          | .error _ => none
          | .ok d =>
            match ParseChecksumFile d with
            | .error _ => none
            | .ok cs => some { Tag := release.TagName, Checksums := cs }) ∧
    (processReleases resolve releases).length =
      releases.countP (releaseSurvives resolve) ∧
    ((∀ r ∈ releases, r.TagName ≠ "") →
      (∀ r ∈ releases, ∀ d, resolve r.TagName = .ok d →
        (ParseChecksumFile d).isOk = true) →
      releases.countP (fun r => !(resolve r.TagName).isOk) = 1 →
      (processReleases resolve releases).length = releases.length - 1) ∧
    (processReleases resolve releases = [] →
      runVersionsCheck (processReleases resolve releases) =
        .error "no versions were successfully processed") := by
  refine ⟨processReleases_eq_filterMap resolve releases,
    processReleases_length resolve releases, fun hall hparse hone => ?_,
    fun hnil => ?_⟩
  · have hc : releases.countP (releaseSurvives resolve) =
        releases.countP (fun r => (resolve r.TagName).isOk) := by
      apply List.countP_congr
      intro r hr
      rw [releaseSurvives]
      have hht := hall r hr
      cases hres : resolve r.TagName with
      | error e => simp [hht, hres, Except.isOk, Except.toBool]
      | ok d =>
        have hp := hparse r hr d hres
        cases hpc : ParseChecksumFile d with
        | error e =>
          rw [hpc] at hp
          simp [Except.isOk, Except.toBool] at hp
        | ok cs => simp [hht, hres, hpc, Except.isOk, Except.toBool]
    have hadd := countP_add_countP_not releases (fun r => (resolve r.TagName).isOk)
    rw [processReleases_length resolve releases, hc]
    omega
  · rw [hnil]
    rfl

/-- Witness for C7 amended: three releases, one failing download, every
resolved manifest parseable, two surviving. -/
theorem claim_C7_aggregation_amended_witness :
    (processReleases
        (fun t => if t = "v2.6.0" then .error "download failed" else .ok "")
        [{ TagName := "v2.6.1" }, { TagName := "v2.6.0" }, { TagName := "v2.5.0" }]).length =
      3 - 1 :=
  (claim_C7_aggregation_amended
      (fun t => if t = "v2.6.0" then .error "download failed" else .ok "")
      [{ TagName := "v2.6.1" }, { TagName := "v2.6.0" }, { TagName := "v2.5.0" }]).2.2.1
    (by decide)
    (by
      intro r _ d hd
      by_cases ht : r.TagName = "v2.6.0"
      · rw [ht] at hd
        simp at hd
      · rw [if_neg ht] at hd
        injection hd with hdd
        rw [← hdd]
        decide)
    (by decide)

/-! The extraction pattern (C5). -/

lemma dropLit_sound : ∀ ls cs rest : List Char,
    dropLit ls cs = some rest → cs = ls ++ rest
  | [], cs, rest, h => by
    simp only [dropLit, Option.some.injEq] at h
    simp [h]
  | _ :: _, [], _, h => by simp [dropLit] at h
  | l :: ls, c :: cs, rest, h => by
    rw [dropLit] at h
    by_cases hcl : c = l
    · rw [if_pos hcl] at h
      have := dropLit_sound ls cs rest h
      simp [hcl, this]
    · rw [if_neg hcl] at h
      cases h

lemma dropLit_append : ∀ ls rest : List Char, dropLit ls (ls ++ rest) = some rest
  | [], _ => rfl
  | l :: ls, rest => by simp [dropLit, dropLit_append ls rest]

lemma expectChar_sound (e : Char) (cs rest : List Char)
    (h : expectChar e cs = some rest) : cs = e :: rest := by
  cases cs with
  | nil => simp [expectChar] at h
  | cons c cs' =>
    rw [expectChar] at h
    by_cases hce : c = e
    · rw [if_pos hce] at h
      obtain rfl := Option.some.inj h
      rw [hce]
    · rw [if_neg hce] at h
      cases h

lemma expectChar_cons (e : Char) (rest : List Char) :
    expectChar e (e :: rest) = some rest := by
  simp [expectChar]

lemma matchRun_sound (p : Char → Bool) (cs : List Char)
    (r : List Char × List Char) (h : matchRun p cs = some r) :
    cs = r.1 ++ r.2 ∧ r.1 ≠ [] ∧ ∀ c ∈ r.1, p c = true := by
  rw [matchRun] at h
  cases ht : cs.takeWhile p with
  | nil => rw [ht] at h; cases h
  | cons a as =>
    rw [ht] at h
    obtain rfl := Option.some.inj h
    refine ⟨?_, by simp, fun c hc => ?_⟩
    · rw [← ht, List.takeWhile_append_dropWhile]
    · rw [← ht] at hc
      exact List.mem_takeWhile_imp hc

lemma takeWhile_all_append (p : Char → Bool) : ∀ (xs : List Char) (y : Char)
    (ys : List Char), (∀ c ∈ xs, p c = true) → p y = false →
    (xs ++ y :: ys).takeWhile p = xs ∧ (xs ++ y :: ys).dropWhile p = y :: ys
  | [], y, ys, _, hy => by
    simp [List.takeWhile_cons, List.dropWhile_cons, hy]
  | x :: xs, y, ys, hall, hy => by
    have hx : p x = true := hall x (by simp)
    have ih := takeWhile_all_append p xs y ys (fun c hc => hall c (by simp [hc])) hy
    simp [List.takeWhile_cons, List.dropWhile_cons, hx, ih.1, ih.2]

lemma matchRun_append (p : Char → Bool) (xs : List Char) (y : Char)
    (ys : List Char) (hne : xs ≠ []) (hall : ∀ c ∈ xs, p c = true)
    (hy : p y = false) : matchRun p (xs ++ y :: ys) = some (xs, y :: ys) := by
  obtain ⟨ht, hd⟩ := takeWhile_all_append p xs y ys hall hy
  cases xs with
  | nil => exact absurd rfl hne
  | cons a as => rw [matchRun, ht, hd]

lemma matchAt_sound (cs : List Char) (r : List Char × List Char)
    (h : matchAt cs = some r) : ∃ s suf, cs = s ++ suf ∧ ShapeList s := by
  rw [matchAt] at h
  simp only [Option.bind_eq_some] at h
  obtain ⟨cs1, hlit, h⟩ := h
  obtain ⟨v2, hv, h⟩ := h
  obtain ⟨cs3, hd1, h⟩ := h
  obtain ⟨os4, ho, h⟩ := h
  obtain ⟨cs5, hd2, h⟩ := h
  obtain ⟨a6, ha, h⟩ := h
  obtain ⟨cs7, hd3, h⟩ := h
  have hcs : cs = toolLit ++ cs1 := dropLit_sound _ _ _ hlit
  obtain ⟨hv2eq, hvne, hvall⟩ := matchRun_sound _ _ _ hv
  have hcs3 : v2.2 = '-' :: cs3 := expectChar_sound _ _ _ hd1
  obtain ⟨ho4eq, hosne, hoall⟩ := matchRun_sound _ _ _ ho
  have hcs5 : os4.2 = '-' :: cs5 := expectChar_sound _ _ _ hd2
  obtain ⟨ha6eq, hane, haall⟩ := matchRun_sound _ _ _ ha
  have hcs7 : a6.2 = '.' :: cs7 := expectChar_sound _ _ _ hd3
  have hassemble : ∀ ext suf : List Char, cs7 = ext ++ suf →
      cs = (toolLit ++ v2.1 ++ ('-' :: os4.1) ++ ('-' :: a6.1) ++ ('.' :: ext)) ++ suf := by
    intro ext suf hext
    rw [hcs, hv2eq, hcs3, ho4eq, hcs5, ha6eq, hcs7, hext]
    simp [List.append_assoc]
  cases hz : dropLit tarGzLit cs7 with
  | some suf =>
    refine ⟨_, suf, hassemble tarGzLit suf (dropLit_sound _ _ _ hz), ?_⟩
    exact ⟨v2.1, os4.1, a6.1, tarGzLit, hvne, hvall, hosne, hoall, hane, haall,
      Or.inl rfl, rfl⟩
  | none =>
    rw [hz] at h
    cases hz2 : dropLit zipLit cs7 with
    | some suf =>
      refine ⟨_, suf, hassemble zipLit suf (dropLit_sound _ _ _ hz2), ?_⟩
      exact ⟨v2.1, os4.1, a6.1, zipLit, hvne, hvall, hosne, hoall, hane, haall,
        Or.inr rfl, rfl⟩
    | none =>
      rw [hz2] at h
      cases h

lemma matchAt_shape (s : List Char) (hs : ShapeList s) (suf : List Char) :
    (matchAt (s ++ suf)).isSome = true := by
  obtain ⟨v, os, arch, ext, hvne, hvall, hosne, hoall, hane, haall, hext, rfl⟩ := hs
  rw [matchAt]
  have hnorm : (toolLit ++ v ++ ('-' :: os) ++ ('-' :: arch) ++ ('.' :: ext)) ++ suf =
      toolLit ++ (v ++ ('-' :: (os ++ ('-' :: (arch ++ ('.' :: (ext ++ suf))))))) := by
    simp [List.append_assoc]
  rw [hnorm, dropLit_append]
  simp only [Option.some_bind]
  rw [matchRun_append isDigitDot v '-' _ hvne hvall (by rfl)]
  simp only [Option.some_bind]
  rw [expectChar_cons]
  simp only [Option.some_bind]
  rw [matchRun_append isWordChar os '-' _ hosne hoall (by rfl)]
  simp only [Option.some_bind]
  rw [expectChar_cons]
  simp only [Option.some_bind]
  rw [matchRun_append isWordChar arch '.' _ hane haall (by rfl)]
  simp only [Option.some_bind]
  rw [expectChar_cons]
  simp only [Option.some_bind]
  rcases hext with rfl | rfl
  · rw [dropLit_append]
    rfl
  · have hz : dropLit tarGzLit (zipLit ++ suf) = none := by
      have h1 : tarGzLit = 't' :: 'a' :: 'r' :: '.' :: 'g' :: 'z' :: [] := rfl
      have h2 : zipLit = 'z' :: 'i' :: 'p' :: [] := rfl
      rw [h1, h2]
      simp [dropLit]
    rw [hz, dropLit_append]
    rfl

lemma findMatch_sound : ∀ (cs : List Char) (r : List Char × List Char),
    findMatch cs = some r → ∃ pre rest, cs = pre ++ rest ∧ matchAt rest = some r
  | [], r, h => ⟨[], [], rfl, by simpa [findMatch] using h⟩
  | c :: cs, r, h => by
    rw [findMatch] at h
    cases hm : matchAt (c :: cs) with
    | some r' =>
      rw [hm] at h
      obtain rfl := Option.some.inj h
      exact ⟨[], c :: cs, rfl, hm⟩
    | none =>
      rw [hm] at h
      obtain ⟨pre, rest, heq, hmat⟩ := findMatch_sound cs r h
      exact ⟨c :: pre, rest, by simp [heq], hmat⟩

lemma findMatch_isSome_of_matchAt : ∀ u t : List Char,
    (matchAt t).isSome = true → (findMatch (u ++ t)).isSome = true
  | [], t, h => by
    cases t with
    | nil => simpa [findMatch] using h
    | cons c cs =>
      rw [List.nil_append, findMatch]
      cases hm : matchAt (c :: cs) with
      | some r => rfl
      | none => rw [hm] at h; simp at h
  | a :: u, t, h => by
    rw [List.cons_append, findMatch]
    cases hm : matchAt (a :: (u ++ t)) with
    | some r => rfl
    | none => exact findMatch_isSome_of_matchAt u t h

/-- C5 amended.  Extraction succeeds exactly when the expected shape occurs
SOMEWHERE in the filename as a substring: the match is an unanchored
leftmost search, so leading or trailing characters (including a further
extension after .tar.gz or .zip) do not make it fail, and the version
segment is any nonempty run of digits and dots. -/
theorem claim_C5_extraction_amended (filename : String) :
    (ExtractPlatformFromFilename filename).isOk = true ↔
    ∃ pre s suf, filename.toList = pre ++ s ++ suf ∧ ShapeList s := by
  constructor
  · intro h
    rw [ExtractPlatformFromFilename] at h
    cases hf : findMatch filename.toList with
    | none => rw [hf] at h; simp [Except.isOk, Except.toBool] at h
    | some r =>
      obtain ⟨pre, rest, heq, hmat⟩ := findMatch_sound _ _ hf
      obtain ⟨s, suf, hrest, hshape⟩ := matchAt_sound _ _ hmat
      exact ⟨pre, s, suf, by rw [heq, hrest, List.append_assoc], hshape⟩
  · rintro ⟨pre, s, suf, heq, hshape⟩
    have hm := matchAt_shape s hshape suf
    have hfind := findMatch_isSome_of_matchAt pre (s ++ suf) hm
    have hfind' : (findMatch (pre ++ s ++ suf)).isSome = true := by
      rw [List.append_assoc]
      exact hfind
    rw [ExtractPlatformFromFilename, heq]
    cases hf : findMatch (pre ++ s ++ suf) with
    | none => rw [hf] at hfind'; simp at hfind'
    | some r => rfl

/-- C5 counterexample: the extension is not required to end the filename;
a .zip.sig file extracts successfully even though it ends in neither
.tar.gz nor .zip, refuting the anchored-shape claim. -/
theorem claim_C5_extraction_counterexample :
    (ExtractPlatformFromFilename "golangci-lint-2.6.1-linux-amd64.zip.sig").isOk = true ∧
    goHasSuffix "golangci-lint-2.6.1-linux-amd64.zip.sig" ".tar.gz" = false ∧
    goHasSuffix "golangci-lint-2.6.1-linux-amd64.zip.sig" ".zip" = false := by
  decide

/-- Witness for C5 amended: a well-formed archive name decomposes into the
substring shape. -/
theorem claim_C5_extraction_amended_witness :
    ∃ pre s suf,
      ("golangci-lint-2.6.1-linux-amd64.zip" : String).toList = pre ++ s ++ suf ∧
      ShapeList s :=
  (claim_C5_extraction_amended "golangci-lint-2.6.1-linux-amd64.zip").mp (by decide)

end UpdateVersions
